import Mathlib

/-!
Verification of the Blockly Java code generator
(file src/generators/java.js of the Rapid-org/blockly repository).

The JavaScript source is shallowly embedded below.  JavaScript strings
become Lean String, JavaScript dictionaries (objects used as maps, whose
string keys preserve insertion order) become association lists
List (String × _) updated in place, JavaScript arrays become List, and
absent / null values become Option.  Functions of the repository that are
not part of the sources under verification (the generic Blockly.Generator
base class and the goog library) are either abstracted as parameters or
modelled from the specification, as indicated on each definition.
-/

/-! ## Generic string and dictionary helpers -/

/-- Lexicographic comparison of character lists by code point.  This is the
default comparison used by the JavaScript sort routine on an array of
strings (goog.array.sort with the default comparator). -/
def lexLe : List Char → List Char → Bool
  | [], _ => true
  | _ :: _, [] => false
  | a :: as, b :: bs => if a = b then lexLe as bs else decide (a < b)

/-- Lexicographic order on strings, Bool valued so that it evaluates. -/
def strLeb (a b : String) : Bool := lexLe a.data b.data

/-- The relation sorted by the JavaScript string sort. -/
def strLeR (a b : String) : Prop := strLeb a b = true

instance : DecidableRel strLeR := fun a b => by
  unfold strLeR; infer_instance

/-- Sorting a list of strings lexicographically: embeds goog.array.sort
and the JavaScript Array.prototype.sort default comparator. -/
def sortA (l : List String) : List String := List.insertionSort strLeR l

/-- Embeds the JavaScript String.prototype.split with a one-character
separator: accumulate the current field, emit a field at each separator.
Auxiliary worker over the character list. -/
def splitCharAux (c : Char) : List Char → List Char → List String
  | [], acc => [String.mk acc.reverse]
  | d :: rest, acc =>
      if d = c then String.mk acc.reverse :: splitCharAux c rest []
      else splitCharAux c rest (d :: acc)

/-- JavaScript s.split(c) for a single-character separator c. -/
def splitChar (c : Char) (s : String) : List String := splitCharAux c s.data []

/-- Worker for replaceFirst: scan for the first occurrence of pat. -/
def replaceFirstAux (pat repl : List Char) : List Char → List Char
  | [] => []
  | d :: rest =>
      if pat.isPrefixOf (d :: rest) then repl ++ (d :: rest).drop pat.length
      else d :: replaceFirstAux pat repl rest

/-- JavaScript String.prototype.replace with a plain string pattern
replaces only the first occurrence of the pattern. -/
def replaceFirst (s pat repl : String) : String :=
  String.mk (replaceFirstAux pat.data repl.data s.data)

/-- Worker for prefixLines: after every newline that is not the final
character of the text, insert the prefix again. -/
def prefixLinesAux (p : List Char) : List Char → List Char
  | [] => []
  | ['\n'] => ['\n']
  | '\n' :: d :: rest => '\n' :: (p ++ prefixLinesAux p (d :: rest))
  | d :: rest => d :: prefixLinesAux p rest

/-- Modelled from the spec: Blockly.Generator.prototype.prefixLines of the
generic generator base class (not under src/) prepends a prefix to every
line of a text; a trailing newline does not start a new prefixed line. -/
def prefixLines (text pfx : String) : String :=
  String.mk (pfx.data ++ prefixLinesAux pfx.data text.data)

/-- Lookup in a JavaScript-object-as-dictionary modelled as an
association list; none corresponds to an undefined property. -/
def lookupA : List (String × String) → String → Option String
  | [], _ => none
  | p :: rest, k => if p.1 = k then some p.2 else lookupA rest k

/-- Assignment obj[k] = v on a JavaScript object: an existing key keeps
its position and gets the new value, a new key is appended. -/
def upsertA (l : List (String × String)) (k v : String) : List (String × String) :=
  if l.any (fun p => p.1 = k) then
    l.map (fun p => if p.1 = k then (k, v) else p)
  else l ++ [(k, v)]

/-- Embeds the JavaScript Array.prototype.join with a separator:
the elements interleaved with the separator, the empty string for an
empty array. -/
def joinSep (sep : String) : List String → String
  | [] => ""
  | [a] => a
  | a :: b :: rest => a ++ sep ++ joinSep sep (b :: rest)

/-! ## Precedence table (Blockly.Java.ORDER_*, java.js lines 63-89) -/

def ORDER_ATOMIC : Nat := 0
def ORDER_COLLECTION : Nat := 1
def ORDER_STRING_CONVERSION : Nat := 1
def ORDER_MEMBER : Nat := 2
def ORDER_FUNCTION_CALL : Nat := 2
def ORDER_POSTFIX : Nat := 3
def ORDER_EXPONENTIATION : Nat := 3
def ORDER_LOGICAL_NOT : Nat := 3
def ORDER_UNARY_SIGN : Nat := 4
def ORDER_MULTIPLICATIVE : Nat := 5
def ORDER_ADDITIVE : Nat := 6
def ORDER_BITWISE_SHIFT : Nat := 7
def ORDER_RELATIONAL : Nat := 8
def ORDER_EQUALITY : Nat := 9
def ORDER_BITWISE_AND : Nat := 10
def ORDER_BITWISE_XOR : Nat := 11
def ORDER_BITWISE_OR : Nat := 12
def ORDER_LOGICAL_AND : Nat := 13
def ORDER_LOGICAL_OR : Nat := 14
def ORDER_CONDITIONAL : Nat := 15
def ORDER_ASSIGNMENT : Nat := 16
def ORDER_NONE : Nat := 99

/-- All category values of the precedence table. -/
def javaOrderValues : List Nat :=
  [ORDER_ATOMIC, ORDER_COLLECTION, ORDER_STRING_CONVERSION, ORDER_MEMBER,
   ORDER_FUNCTION_CALL, ORDER_POSTFIX, ORDER_EXPONENTIATION,
   ORDER_LOGICAL_NOT, ORDER_UNARY_SIGN, ORDER_MULTIPLICATIVE,
   ORDER_ADDITIVE, ORDER_BITWISE_SHIFT, ORDER_RELATIONAL, ORDER_EQUALITY,
   ORDER_BITWISE_AND, ORDER_BITWISE_XOR, ORDER_BITWISE_OR,
   ORDER_LOGICAL_AND, ORDER_LOGICAL_OR, ORDER_CONDITIONAL,
   ORDER_ASSIGNMENT, ORDER_NONE]

/-- Modelled from the spec: the parenthesization rule applied by the
generic generator base class when inlining a child expression (the
valueToCode routine, which is not under src/).  A child expression is
parenthesized iff its category is numerically weaker, that is a larger
distance from atomic, than what the parent context requires. -/
def needsParens (childCategory parentContext : Nat) : Bool :=
  decide (parentContext < childCategory)

/-! ## Type mapping (java.js lines 359-365, 503-564) -/

/-- Blockly.Java.typeMapping (java.js lines 503-511), as a partial lookup:
none models an absent key, whose JavaScript lookup is the falsy
undefined. -/
def typeMapping : String → Option String := fun t =>
  if t = "Object" then some "Object"
  else if t = "Array" then some "YailList"
  else if t = "Map" then some "HashMap"
  else if t = "Boolean" then some "boolean"
  else if t = "String" then some "String"
  else if t = "Colour" then some "String"
  else if t = "Number" then some "double"
  else none

/-- Blockly.Java.subtypeMapping (java.js lines 513-521). -/
def subtypeMapping : String → Option String := fun t =>
  if t = "Object" then some "Object"
  else if t = "Array" then some "YailList"
  else if t = "Map" then some "HashMap"
  else if t = "Boolean" then some "boolean"
  else if t = "String" then some "String"
  else if t = "Colour" then some "String"
  else if t = "Number" then some "Double"
  else none

/-- The external dictionaries consulted by mapType: Blockly.Blocks (a
block class with a truthy GBPClass property is rendered as some of that
class) and Blockly.VariableTypeEquivalence (equiv t is the truthiness of
the entry for t).  Both live outside the generator core. -/
structure TypeEnv where
  gbpClass : String → Option String
  equiv : String → Bool

/-- One lookup step of the inner mapType_ worker (java.js lines 536-547):
the concrete table first, then a known block class with a GBPClass, then
the type-equivalence table (keeping the token as is), else Object. -/
def mapTypeStep (env : TypeEnv) (tm : String → Option String) (key : String) : String :=
  match tm key with
  | some t => t
  | none =>
      match env.gbpClass key with
      | some c => c
      | none => if env.equiv key then key else "Object"

/-- The recursive mapType_ worker (java.js lines 529-555).  An empty or
missing type array is replaced by the single token Object; the first
token is looked up in the table given as argument; remaining tokens are
mapped with the subtype table and wrapped as a generic parameter. -/
def mapTypeAux (env : TypeEnv) (tm : String → Option String) : List String → String
  | [] => mapTypeStep env tm "Object"
  | key :: rest =>
      let t := mapTypeStep env tm key
      match rest with
      | [] => t
      | r :: rs => t ++ "<" ++ mapTypeAux env subtypeMapping (r :: rs) ++ ">"

/-- Blockly.Java.mapType (java.js lines 528-564).  A falsy type (absent
or the empty string) leaves the type array null, which the worker treats
as the empty array; otherwise the type splits on the colon. -/
def mapType (env : TypeEnv) (type : Option String) : String :=
  let typeArray : List String :=
    match type with
    | some s => if s = "" then [] else splitChar ':' s
    | none => []
  mapTypeAux env typeMapping typeArray

/-- Blockly.Java.GetVariableType (java.js lines 359-365) over the
variableTypes_ dictionary: a falsy entry (absent or empty) gives
Object. -/
def GetVariableType (variableTypes : List (String × String)) (name : String) : String :=
  match lookupA variableTypes name with
  | some t => if t = "" then "Object" else t
  | none => "Object"

/-! ## Import registry (java.js lines 380-401) -/

/-- Blockly.Java.addImport (java.js lines 380-383): the import statement
string is both the key and the value of the imports_ dictionary, so a
repeated key rewrites the same value in place.  Modelled on the list of
values in insertion order: insert if absent. -/
def addImportL (imports : List String) (importlib : String) : List String :=
  let importStr := "import " ++ importlib ++ ";"
  if importStr ∈ imports then imports else imports ++ [importStr]

/-- The list underlying Blockly.Java.getImports (java.js lines 390-401):
first every entry of the ExtraImports_ configuration is pushed through
addImport, then the dictionary values are sorted. -/
def getImportsList (imports : List String) (extraImports : Option (List String)) :
    List String :=
  let imports :=
    match extraImports with
    | some es => es.foldl addImportL imports
    | none => imports
  sortA imports

/-- Blockly.Java.getImports returns the sorted values joined by
newlines. -/
def getImports (imports : List String) (extraImports : Option (List String)) : String :=
  joinSep "\n" (getImportsList imports extraImports)

/-! ## Helper-definition emission order in finish (java.js lines 640-724) -/

/-- A collected helper definition: either its rendered text, or a
deferred factory (a JavaScript function) producing the text when the
definition is emitted. -/
inductive HelperDef where
  | text (s : String) : HelperDef
  | factory (s : String) : HelperDef
deriving DecidableEq

/-- The static test of finish (java.js lines 650-660): a factory is
assumed non-static; for a text definition the first three
space-separated fields are inspected for the word static. -/
def staticSlot : HelperDef → Bool
  | .factory _ => false
  | .text s => ((splitChar ' ' s).take 3).contains "static"

/-- The emission order of helper definitions computed by finish
(java.js lines 642-662 build the two slots, lines 685-688 emit slot 0
then slot 1, each sorted): the key named variables is skipped, the
static slot is sorted and emitted first, then the sorted non-static
slot. -/
def finishHelperOrder (defs : List (String × HelperDef)) : List String :=
  let named := defs.filter (fun p => p.1 ≠ "variables")
  let statics := (named.filter (fun p => staticSlot p.2)).map Prod.fst
  let insts := (named.filter (fun p => !staticSlot p.2)).map Prod.fst
  sortA statics ++ sortA insts

/-- The emission order described by the specification sentence of claim
C3, for comparison with finishHelperOrder: the static-like group holds
the definitions whose declaration text contains the static marker token
anywhere. -/
def specHelperOrder (defs : List (String × HelperDef)) : List String :=
  let named := defs.filter (fun p => p.1 ≠ "variables")
  let hasTok : HelperDef → Bool
    | .factory _ => false
    | .text s => (splitChar ' ' s).contains "static"
  let statics := (named.filter (fun p => hasTok p.2)).map Prod.fst
  let insts := (named.filter (fun p => !hasTok p.2)).map Prod.fst
  sortA statics ++ sortA insts

/-! ## Global-variable field rendering in finish (java.js lines 668-683) -/

/-- The initializer chosen by finish when no explicit value was supplied
(java.js lines 673-679): the comparisons are against the literal type
names Var, Boolean and String. -/
def defaultInitializer (type : String) : String :=
  if type = "Var" then " = new Var()"
  else if type = "Boolean" then " = false"
  else if type = "String" then " = \"\""
  else ""

/-- The initializer of one global (java.js lines 669-679): an explicit
value that is neither null nor the empty string wins, otherwise the
default for the resolved type. -/
def globalInitializer (type : String) (val : Option String) : String :=
  match val with
  | some v => if v ≠ "" then " = " ++ v else defaultInitializer type
  | none => defaultInitializer type

/-- One field declaration line of the globals loop of finish (java.js
lines 668-683).  nameFn abstracts variableDB_.getName. -/
def globalDecl (variableTypes : List (String × String)) (nameFn : String → String)
    (g : String × Option String) : String :=
  let type := GetVariableType variableTypes g.1
  "protected " ++ type ++ " " ++ nameFn g.1 ++ globalInitializer type g.2 ++ ";\n"

/-! ## Generator state (the Blockly.Java singleton properties) -/

/-- The mutable properties of the Blockly.Java singleton that the
embedded operations touch (java.js lines 94-175 and the dictionaries
created by init).  Dictionaries are association lists in insertion
order; variableDB_ is the binding list of the name database (the
Blockly.Names instance). -/
structure GenState where
  AppName_ : String := "myApp"
  Package_ : String := "demo"
  Baseclass_ : String := ""
  Description_ : String := "An AppInventor 2 Extension. Made With Rapid."
  VersionName_ : String := "1.0"
  VersionNumber_ : String := "0"
  HomeWebsite_ : String := ""
  minSdk : String := ""
  icon : String := "images/extension.png"
  name : String := "<<Your Name>>"
  year : Nat := 2026
  needImports_ : List String := []
  Interfaces_ : List String := []
  ExtraImports_ : Option (List String) := none
  imports_ : List String := []
  definitions_ : List (String × HelperDef) := []
  functionNames_ : List (String × String) := []
  classes_ : List (String × String) := []
  globals_ : List (String × Option String) := []
  variableTypes_ : List (String × String) := []
  blocklyTypes_ : List (String × String) := []
  variableDB_ : List (String × String) := []
deriving DecidableEq

/-- Blockly.Java.setAppName (java.js lines 209-214): a falsy name falls
back to MyApp. -/
def setAppName (st : GenState) (nm : Option String) : GenState :=
  let n :=
    match nm with
    | some s => if s = "" then "MyApp" else s
    | none => "MyApp"
  { st with AppName_ := n }

/-- Blockly.Java.setBaseclass (java.js lines 306-308). -/
def setBaseclass (st : GenState) (baseclass : String) : GenState :=
  { st with Baseclass_ := baseclass }

/-- Blockly.Java.addInterface (java.js lines 325-329): push if not yet
contained. -/
def addInterface (st : GenState) (iface : String) : GenState :=
  if iface ∈ st.Interfaces_ then st
  else { st with Interfaces_ := st.Interfaces_ ++ [iface] }

/-- Blockly.Java.addImport acting on the generator state. -/
def addImportS (st : GenState) (importlib : String) : GenState :=
  { st with imports_ := addImportL st.imports_ importlib }

/-- Blockly.Java.getBaseclass (java.js lines 314-320): a nonempty base
class goes through variableDB_.getName with type CLASS, abstracted as
nameFn. -/
def getBaseclass (st : GenState) (nameFn : String → String → String) : String :=
  if st.Baseclass_ ≠ "" then nameFn st.Baseclass_ "CLASS" else st.Baseclass_

/-- Blockly.Java.getAppName (java.js lines 240-242). -/
def getAppName (st : GenState) (nameFn : String → String → String) : String :=
  nameFn st.AppName_ "CLASS"

/-- Blockly.Java.getClasses (java.js lines 419-428): concatenate the
extra class bodies; append two newlines when nonempty. -/
def getClasses (st : GenState) : String :=
  let code := String.join (st.classes_.map Prod.snd)
  if code ≠ "" then code ++ "\n\n" else code

/-- The interface part of the class signature (java.js lines 475-482):
the first interface is preceded by the implements keyword, later ones by
a comma. -/
def implementsPart (ifaces : List String) : String :=
  match ifaces with
  | [] => ""
  | _ => " implements " ++ joinSep ", " ifaces

/-! ## init (java.js lines 597-633) -/

/-- Blockly.Java.init.  The workspace is abstracted by the list of its
variable names (Blockly.Variables.allVariables) and the dictionary of
blockly types (Blockly.Variables.allVariablesTypes); env carries the
external type dictionaries.  init recreates the definitions, function
name, imports, extra-class and globals dictionaries, reseeds the imports
from needImports_, resets the name database, records the Colour-String
type equivalence, replaces blocklyTypes_ and then writes the mapped Java
type of every current variable into variableTypes_. -/
def initG (st : GenState) (env : TypeEnv) (wsVars : List String)
    (wsTypes : List (String × String)) : GenState :=
  let st := { st with definitions_ := [], functionNames_ := [], imports_ := [],
                      classes_ := [], globals_ := [] }
  let st := { st with imports_ := st.needImports_.foldl addImportL [] }
  let st := { st with variableDB_ := [] }
  let envC : TypeEnv := { env with equiv := fun t => t = "Colour" || env.equiv t }
  let st := { st with blocklyTypes_ := wsTypes }
  let vars := wsVars ++ wsTypes.map Prod.fst
  { st with
    variableTypes_ :=
      vars.foldl
        (fun acc key => upsertA acc key (mapType envC (lookupA wsTypes key)))
        st.variableTypes_ }

/-! ## forceUpdate and workspaceToCode (java.js lines 277-294, 445-492) -/

/-- The root value handed to the generator: the two probed capabilities
(getDescendants for a block, getAllBlocks for a workspace), the options
appTitle read by the wrapper, and the string rendering used when the
root is reported in the error message. -/
structure Root where
  descendants : Option (List Unit)
  allBlocks : Option (List Unit)
  appTitle : Option String
  str : String

/-- Blockly.Java.forceUpdate (java.js lines 277-294).  The onchange
calls mutate only the blocks themselves, so the embedded effect on the
generator is none; a root with neither capability throws. -/
def forceUpdate (root : Root) : Except String Unit :=
  match root.descendants with
  | some _ => Except.ok ()
  | none =>
      match root.allBlocks with
      | some _ => Except.ok ()
      | none => Except.error ("Not Block or Workspace: " ++ root.str)

/-- Blockly.Java.fileHeader (java.js lines 179-204). -/
def fileHeader : String :=
  "/*\n" ++
  " * Copyright (c) <<Year>>, <<Your Name>>\n" ++
  " * All rights reserved.\n" ++
  " *\n" ++
  " * Redistribution and use in source and binary forms, with or without\n" ++
  " * modification, are permitted provided that the following conditions are met:\n" ++
  " *\n" ++
  " * * Redistributions of source code must retain the above copyright notice, this\n" ++
  " *   list of conditions and the following disclaimer.\n" ++
  " * * Redistributions in binary form must reproduce the above copyright notice,\n" ++
  " *   this list of conditions and the following disclaimer in the documentation\n" ++
  " *   and/or other materials provided with the distribution.\n" ++
  " *\n" ++
  " * THIS SOFTWARE IS PROVIDED BY THE COPYRIGHT HOLDERS AND CONTRIBUTORS \"AS IS\"\n" ++
  " * AND ANY EXPRESS OR IMPLIED WARRANTIES, INCLUDING, BUT NOT LIMITED TO, THE\n" ++
  " * IMPLIED WARRANTIES OF MERCHANTABILITY AND FITNESS FOR A PARTICULAR PURPOSE\n" ++
  " * ARE DISCLAIMED. IN NO EVENT SHALL THE COPYRIGHT HOLDER OR CONTRIBUTORS BE\n" ++
  " * LIABLE FOR ANY DIRECT, INDIRECT, INCIDENTAL, SPECIAL, EXEMPLARY, OR\n" ++
  " * CONSEQUENTIAL DAMAGES (INCLUDING, BUT NOT LIMITED TO, PROCUREMENT OF\n" ++
  " * SUBSTITUTE GOODS OR SERVICES; LOSS OF USE, DATA, OR PROFITS; OR BUSINESS\n" ++
  " * INTERRUPTION) HOWEVER CAUSED AND ON ANY THEORY OF LIABILITY, WHETHER IN\n" ++
  " * CONTRACT, STRICT LIABILITY, OR TORT (INCLUDING NEGLIGENCE OR OTHERWISE)\n" ++
  " * ARISING IN ANY WAY OUT OF THE USE OF THIS SOFTWARE, EVEN IF ADVISED OF THE\n" ++
  " * POSSIBILITY OF SUCH DAMAGE.\n" ++
  " */\n"

/-- The five imports registered by workspaceToCode after the body has
been generated (java.js lines 452-456), in call order. -/
def fixedAppInventorImports : List String :=
  ["com.google.appinventor.components.runtime.AndroidNonvisibleComponent",
   "com.google.appinventor.components.runtime.ComponentContainer",
   "com.google.appinventor.components.annotations.SimpleObject",
   "com.google.appinventor.components.annotations.DesignerComponent",
   "com.google.appinventor.components.common.ComponentCategory"]

/-- The generator state after the body generation of workspaceToCode:
the five fixed imports are added and the base class is overwritten
(java.js lines 452-457). -/
def wtcFinalState (st : GenState) : GenState :=
  let st := fixedAppInventorImports.foldl addImportS st
  setBaseclass st "AndroidNonvisibleComponent"

/-- The part of the final text assembled before the class keyword
(java.js lines 458-470): header with author and year substituted,
package declaration, sorted imports, the two annotations with the two
optional attributes, and the opening of the class declaration. -/
def wtcHeadPart (st : GenState) (nameFn : String → String → String) : String :=
  let finalcode :=
    replaceFirst (replaceFirst fileHeader "<<Your Name>>" st.name)
        "<<Year>>" (toString st.year) ++
      "package " ++ st.Package_ ++ ";\n\n" ++
      getImports st.imports_ st.ExtraImports_ ++ "\n" ++
      "@SimpleObject(external=true)\n" ++
      "@DesignerComponent(version = " ++ st.VersionNumber_ ++
      ", nonVisible = true, category = ComponentCategory.EXTENSION, iconName = \"" ++
      st.icon ++ "\", description = \"" ++ st.Description_ ++
      "\", versionName = \"" ++ st.VersionName_ ++ "\""
  let finalcode :=
    if st.HomeWebsite_.length ≠ 0 then
      finalcode ++ ", helpUrl = \"" ++ st.HomeWebsite_ ++ "\""
    else finalcode
  let finalcode :=
    if st.minSdk.length ≠ 0 then finalcode ++ ", androidMinSdk = " ++ st.minSdk
    else finalcode
  let finalcode := finalcode ++ ")\n"
  finalcode ++ "public class " ++ getAppName st nameFn

/-- The part of the final text assembled after the class signature
(java.js lines 483-490): interface list, constructor, body, closing
brace and extra classes. -/
def wtcTailPart (st : GenState) (nameFn : String → String → String)
    (code : String) : String :=
  implementsPart st.Interfaces_ ++ " \x7b\n\n" ++
    "public " ++ getAppName st nameFn ++ "(ComponentContainer container) \x7b\n" ++
    "  super(container.$form());\n" ++
    "\x7d\n" ++
    code ++ "\n" ++
    "\x7d\n\n" ++
    getClasses st

/-- The assembly of the final compilation unit text (java.js lines
458-490), on the state produced by wtcFinalState: the head part, the
optional extends clause, then the tail part. -/
def wtcAssemble (st : GenState) (nameFn : String → String → String)
    (code : String) : String :=
  let finalcode := wtcHeadPart st nameFn
  let baseClass := getBaseclass st nameFn
  let finalcode :=
    if baseClass ≠ "" then finalcode ++ " extends " ++ baseClass else finalcode
  finalcode ++ wtcTailPart st nameFn code

/-- The overriding Blockly.Java.workspaceToCode (java.js lines 445-492).
The saved base-class implementation workspaceToCode_ (the generic
Blockly.Generator method, not under src/) is abstracted as bodyGen,
which returns the generated body and the state it accumulated;
variableDB_.getName is abstracted as nameFn.  An error thrown by
forceUpdate propagates and no string is produced. -/
def workspaceToCodeE (st0 : GenState) (nameFn : String → String → String)
    (root : Root) (bodyGen : GenState → String × GenState) :
    Except String String := do
  let st := setAppName st0 root.appTitle
  let _ ← forceUpdate root
  let (code, st) := bodyGen st
  let st := wtcFinalState st
  return wtcAssemble st nameFn code

/-! ## Block trees and scrub_ (java.js lines 834-867) -/

/-- The kind of an input slot of a block: a value input, a statement
input or a dummy input. -/
inductive InKind where
  | value | statement | dummy
deriving DecidableEq

/-- A block as read by scrub_: whether it has an output connection and
whether that connection has a target (none models no output connection,
some b models an output connection with b telling whether a target is
plugged in), the attached comment, the input list with the target block
of each input connection, and the target of the next connection. -/
inductive JBlock : Type where
  | mk (outputHasTarget : Option Bool) (comment : Option String)
       (inputs : List (InKind × Option JBlock)) (next : Option JBlock) : JBlock

def JBlock.outputHasTarget : JBlock → Option Bool
  | .mk o _ _ _ => o

def JBlock.comment : JBlock → Option String
  | .mk _ c _ _ => c

def JBlock.inputs : JBlock → List (InKind × Option JBlock)
  | .mk _ _ i _ => i

def JBlock.next : JBlock → Option JBlock
  | .mk _ _ _ n => n

mutual
/-- The comments of a block and all of its descendants, in the
depth-first order of getDescendants: the block itself, then the subtree
of every input in order, then the next chain.  A falsy (absent or
empty) comment is skipped. -/
def JBlock.commentList : JBlock → List String
  | .mk _ c ins nxt =>
      (match c with | some s => if s = "" then [] else [s] | none => []) ++
        inputsCommentList ins ++ optCommentList nxt

def inputsCommentList : List (InKind × Option JBlock) → List String
  | [] => []
  | (_, ob) :: rest => optCommentList ob ++ inputsCommentList rest

def optCommentList : Option JBlock → List String
  | none => []
  | some b => JBlock.commentList b
end

/-- Modelled from the spec: Blockly.Generator.prototype.allNestedComments
of the generic generator base class (not under src/) joins the comments
of a block subtree with newlines and appends a final newline when any
comment was found. -/
def allNestedComments (b : JBlock) : String :=
  match b.commentList with
  | [] => ""
  | cs => joinSep "\n" (cs ++ [""])

/-- The two single-use emission modifiers of the generator
(Blockly.Java.POSTFIX at java.js line 99 and Blockly.Java.EXTRAINDENT at
line 107). -/
structure ScrubSt where
  POSTFIXV : String
  EXTRAINDENTV : String
deriving DecidableEq

/-- The comment prefix collected by scrub_ (java.js lines 835-856): for
a block that is not inlined (no output connection, or an output
connection without a target), the prefixed own comment followed by the
prefixed nested comments of every value-input subtree; statement inputs
are not harvested.  An inlined block collects nothing. -/
def scrubCommentCode (b : JBlock) : String :=
  if b.outputHasTarget ≠ some true then
    let own :=
      match b.comment with
      | some c => if c = "" then "" else prefixLines c "// " ++ "\n"
      | none => ""
    let childs :=
      b.inputs.foldl
        (fun acc p =>
          match p with
          | (InKind.value, some childBlock) =>
              let cmt := allNestedComments childBlock
              if cmt = "" then acc else acc ++ prefixLines cmt "// "
          | _ => acc)
        ""
    own ++ childs
  else ""

/-- Blockly.Java.scrub_ (java.js lines 834-867).  The recursive
blockToCode call on the next block (a generic generator method, not
under src/) is abstracted as emitNext, which receives the modifier state
as the generator leaves it: both modifiers are read into locals and
reset to the empty string before the next block is emitted, the staged
extra indent is applied to the next-chain code alone, and the staged
postfix is appended once at the very end. -/
def scrub (b : JBlock) (code : String) (st : ScrubSt)
    (emitNext : Option JBlock → ScrubSt → String × ScrubSt) : String × ScrubSt :=
  let commentCode := scrubCommentCode b
  let postFixS := st.POSTFIXV
  let extraIndent := st.EXTRAINDENTV
  let (nextCode, st2) := emitNext b.next { POSTFIXV := "", EXTRAINDENTV := "" }
  let nextCode := if extraIndent ≠ "" then prefixLines nextCode extraIndent else nextCode
  (commentCode ++ code ++ nextCode ++ postFixS, st2)

/-! ## Order-theoretic facts about the lexicographic comparison -/

theorem lexLe_total : ∀ a b : List Char, lexLe a b = true ∨ lexLe b a = true := by
  intro a
  induction a with
  | nil => intro b; left; rfl
  | cons x xs ih =>
      intro b
      cases b with
      | nil => right; rfl
      | cons y ys =>
          by_cases hxy : x = y
          · subst hxy
            rcases ih ys with h | h
            · left; simpa [lexLe] using h
            · right; simpa [lexLe] using h
          · rcases lt_or_gt_of_ne hxy with h | h
            · left; simp [lexLe, hxy, h]
            · right
              have hyx : y ≠ x := fun hc => hxy hc.symm
              simp [lexLe, hyx, h]

theorem lexLe_trans :
    ∀ a b c : List Char, lexLe a b = true → lexLe b c = true → lexLe a c = true := by
  intro a
  induction a with
  | nil => intro b c _ _; rfl
  | cons x xs ih =>
      intro b c hab hbc
      cases b with
      | nil => simp [lexLe] at hab
      | cons y ys =>
          cases c with
          | nil => simp [lexLe] at hbc
          | cons z zs =>
              by_cases hxy : x = y
              · subst hxy
                by_cases hyz : x = z
                · subst hyz
                  simp [lexLe] at hab hbc ⊢
                  exact ih ys zs hab hbc
                · simp [lexLe, hyz] at hbc ⊢
                  exact hbc
              · simp [lexLe, hxy] at hab
                by_cases hyz : y = z
                · subst hyz; simp [lexLe, hxy]; exact hab
                · simp [lexLe, hyz] at hbc
                  have hxz : x < z := lt_trans hab hbc
                  have hne : x ≠ z := ne_of_lt hxz
                  simp [lexLe, hne]
                  exact hxz

theorem lexLe_antisymm :
    ∀ a b : List Char, lexLe a b = true → lexLe b a = true → a = b := by
  intro a
  induction a with
  | nil =>
      intro b _ hba
      cases b with
      | nil => rfl
      | cons y ys => simp [lexLe] at hba
  | cons x xs ih =>
      intro b hab hba
      cases b with
      | nil => simp [lexLe] at hab
      | cons y ys =>
          by_cases hxy : x = y
          · subst hxy
            simp [lexLe] at hab hba
            exact congrArg (x :: ·) (ih ys hab hba)
          · have hyx : y ≠ x := fun hc => hxy hc.symm
            simp [lexLe, hxy] at hab
            simp [lexLe, hyx] at hba
            exact absurd hba (not_lt_of_gt hab)

instance : IsTotal String strLeR :=
  ⟨fun a b => lexLe_total a.data b.data⟩

instance : IsTrans String strLeR :=
  ⟨fun a b c hab hbc => lexLe_trans a.data b.data c.data hab hbc⟩

instance : IsAntisymm String strLeR :=
  ⟨fun a b hab hba => String.ext (lexLe_antisymm a.data b.data hab hba)⟩

theorem sortA_perm (l : List String) : (sortA l).Perm l :=
  List.perm_insertionSort strLeR l

theorem sortA_sorted (l : List String) : List.Sorted strLeR (sortA l) :=
  List.sorted_insertionSort strLeR l

theorem sortA_congr_perm {l₁ l₂ : List String} (h : l₁.Perm l₂) :
    sortA l₁ = sortA l₂ :=
  List.eq_of_perm_of_sorted
    (((sortA_perm l₁).trans h).trans (sortA_perm l₂).symm)
    (sortA_sorted l₁) (sortA_sorted l₂)

theorem mem_sortA {x : String} {l : List String} : x ∈ sortA l ↔ x ∈ l :=
  (sortA_perm l).mem_iff

/-! ## Facts about the import registry -/

theorem mem_addImportL {x : String} (s : List String) (b : String) :
    x ∈ addImportL s b ↔ x ∈ s ∨ x = "import " ++ b ++ ";" := by
  unfold addImportL
  by_cases h : ("import " ++ b ++ ";") ∈ s
  · simp only [if_pos h]
    constructor
    · exact fun hx => Or.inl hx
    · rintro (hx | rfl)
      · exact hx
      · exact h
  · simp [if_neg h]

theorem nodup_addImportL {s : List String} (hs : s.Nodup) (b : String) :
    (addImportL s b).Nodup := by
  unfold addImportL
  by_cases h : ("import " ++ b ++ ";") ∈ s
  · simpa [if_pos h] using hs
  · simp [if_neg h, List.nodup_append, hs, h]

theorem mem_foldl_addImportL {x : String} (l : List String) (s : List String) :
    x ∈ l.foldl addImportL s ↔ x ∈ s ∨ ∃ b ∈ l, x = "import " ++ b ++ ";" := by
  induction l generalizing s with
  | nil => simp
  | cons b bs ih =>
      rw [List.foldl_cons, ih]
      rw [mem_addImportL]
      constructor
      · rintro ((hx | rfl) | ⟨b', hb', rfl⟩)
        · exact Or.inl hx
        · exact Or.inr ⟨b, by simp⟩
        · exact Or.inr ⟨b', by simp [hb']⟩
      · rintro (hx | ⟨b', hb', rfl⟩)
        · exact Or.inl (Or.inl hx)
        · rcases List.mem_cons.mp hb' with rfl | hb'
          · exact Or.inl (Or.inr rfl)
          · exact Or.inr ⟨b', hb', rfl⟩

theorem nodup_foldl_addImportL {s : List String} (hs : s.Nodup) (l : List String) :
    (l.foldl addImportL s).Nodup := by
  induction l generalizing s with
  | nil => simpa
  | cons b bs ih => exact ih (nodup_addImportL hs b)

/-! ## Claim C1 -/

/-- C1: in the precedence table, the multiplicative category is
numerically stronger (closer to atomic) than the additive category, the
conditional category is numerically weaker than the additive category,
and ORDER_NONE is numerically weaker than every other category of the
table; under the rule that a child is parenthesized iff its category is
numerically weaker than the parent context, a multiplicative operand of
an additive parent gets no parentheses, a conditional operand of an
additive parent gets parentheses, and a no-context parent never requires
parentheses for any table category. -/
theorem precedence_table_parenthesization :
    ORDER_MULTIPLICATIVE < ORDER_ADDITIVE ∧
    ORDER_ADDITIVE < ORDER_CONDITIONAL ∧
    (∀ c, c ∈ javaOrderValues → c ≠ ORDER_NONE → c < ORDER_NONE) ∧
    needsParens ORDER_MULTIPLICATIVE ORDER_ADDITIVE = false ∧
    needsParens ORDER_CONDITIONAL ORDER_ADDITIVE = true ∧
    (∀ c, c ∈ javaOrderValues → needsParens c ORDER_NONE = false) := by
  refine ⟨by decide, by decide, ?_, by decide, by decide, ?_⟩
  · intro c hc hne
    fin_cases hc <;> simp_all <;> decide
  · intro c hc
    fin_cases hc <;> decide

/-- Witness for C1: the quantified parts applied at the conditional
category, a concrete member of the table. -/
theorem precedence_table_parenthesization_witness :
    ORDER_CONDITIONAL ∈ javaOrderValues ∧
    ORDER_CONDITIONAL < ORDER_NONE ∧
    needsParens ORDER_CONDITIONAL ORDER_NONE = false :=
  ⟨by decide,
   precedence_table_parenthesization.2.2.1 ORDER_CONDITIONAL (by decide) (by decide),
   precedence_table_parenthesization.2.2.2.2.2 ORDER_CONDITIONAL (by decide)⟩

/-! ## Claim C2 -/

/-- C2: registering any set of import libraries through addImport, in
any call order and with any number of repetitions, gives the same
getImports result: a lexicographically sorted, duplicate-free list that
also contains the import statement of every entry of the configured
extra-imports list; registering the same library twice has no
additional effect. -/
theorem getImports_sorted_dedup_deterministic
    (l₁ l₂ extras : List String)
    (h₁ : l₁ ⊆ l₂) (h₂ : l₂ ⊆ l₁) :
    getImportsList (l₁.foldl addImportL []) (some extras) =
      getImportsList (l₂.foldl addImportL []) (some extras) ∧
    List.Sorted strLeR (getImportsList (l₁.foldl addImportL []) (some extras)) ∧
    (getImportsList (l₁.foldl addImportL []) (some extras)).Nodup ∧
    (∀ e ∈ extras,
      ("import " ++ e ++ ";") ∈ getImportsList (l₁.foldl addImportL []) (some extras)) ∧
    (∀ s lib, addImportL (addImportL s lib) lib = addImportL s lib) := by
  have base : ∀ l : List String,
      getImportsList (l.foldl addImportL []) (some extras) =
        sortA (extras.foldl addImportL (l.foldl addImportL [])) := by
    intro l; rfl
  have memfull : ∀ (l : List String) (x : String),
      x ∈ extras.foldl addImportL (l.foldl addImportL []) ↔
        (∃ b ∈ l, x = "import " ++ b ++ ";") ∨
        (∃ e ∈ extras, x = "import " ++ e ++ ";") := by
    intro l x
    rw [mem_foldl_addImportL, mem_foldl_addImportL]
    simp
  have nod : ∀ l : List String,
      (extras.foldl addImportL (l.foldl addImportL [])).Nodup := by
    intro l
    exact nodup_foldl_addImportL (nodup_foldl_addImportL List.nodup_nil l) extras
  refine ⟨?_, ?_, ?_, ?_, ?_⟩
  · rw [base l₁, base l₂]
    apply sortA_congr_perm
    rw [List.perm_ext_iff_of_nodup (nod l₁) (nod l₂)]
    intro x
    rw [memfull l₁, memfull l₂]
    constructor
    · rintro (⟨b, hb, rfl⟩ | he)
      · exact Or.inl ⟨b, h₁ hb, rfl⟩
      · exact Or.inr he
    · rintro (⟨b, hb, rfl⟩ | he)
      · exact Or.inl ⟨b, h₂ hb, rfl⟩
      · exact Or.inr he
  · rw [base l₁]; exact sortA_sorted _
  · rw [base l₁]; exact (sortA_perm _).nodup_iff.mpr (nod l₁)
  · intro e he
    rw [base l₁, mem_sortA, memfull l₁]
    exact Or.inr ⟨e, he, rfl⟩
  · intro s lib
    unfold addImportL
    by_cases h : ("import " ++ lib ++ ";") ∈ s
    · simp [if_pos h]
    · simp [if_neg h]

/-- Witness for C2: two concrete registration sequences over the same
set of libraries, with repetitions and in different orders, plus one
extra import. -/
theorem getImports_sorted_dedup_deterministic_witness :
    (["b", "a", "a"] : List String) ⊆ ["a", "b"] ∧
    (["a", "b"] : List String) ⊆ ["b", "a", "a"] ∧
    getImportsList ((["b", "a", "a"] : List String).foldl addImportL []) (some ["c"]) =
      getImportsList ((["a", "b"] : List String).foldl addImportL []) (some ["c"]) ∧
    ("import c;") ∈
      getImportsList ((["b", "a", "a"] : List String).foldl addImportL []) (some ["c"]) := by
  have h := getImports_sorted_dedup_deterministic ["b", "a", "a"] ["a", "b"] ["c"]
    (by decide) (by decide)
  exact ⟨by decide, by decide, h.1, h.2.2.2.1 "c" (by decide)⟩

/-! ## Claim C3 -/

/-- C3 counterexample: a helper whose declaration text contains the
static marker token, but not among the first three space-separated
fields, is emitted by finish in the instance-like group; with the helper
names chosen here the emission order of the code differs from the order
the claim describes, so the claim as stated is false. -/
theorem finish_static_partition_counterexample :
    (splitChar ' '
        "public final synchronized static void a() \x7b").contains "static" = true ∧
    staticSlot (HelperDef.text "public final synchronized static void a() \x7b") = false ∧
    finishHelperOrder
        [("z", HelperDef.text "static int z() \x7b"),
         ("a", HelperDef.text "public final synchronized static void a() \x7b")] =
      ["z", "a"] ∧
    specHelperOrder
        [("z", HelperDef.text "static int z() \x7b"),
         ("a", HelperDef.text "public final synchronized static void a() \x7b")] =
      ["a", "z"] ∧
    (["z", "a"] : List String) ≠ ["a", "z"] := by
  refine ⟨by decide, by decide, by decide, by decide, by decide⟩

/-- The two sorted slots that make up the emission order, by
unfolding finishHelperOrder. -/
theorem finishHelperOrder_parts (defs : List (String × HelperDef)) :
    finishHelperOrder defs =
      sortA (((defs.filter (fun p => p.1 ≠ "variables")).filter
          (fun p => staticSlot p.2)).map Prod.fst) ++
      sortA (((defs.filter (fun p => p.1 ≠ "variables")).filter
          (fun p => !staticSlot p.2)).map Prod.fst) := rfl

/-- C3 as amended: finish partitions the collected helper definitions
into a static-like group (text definitions carrying the static marker
token among the first three space-separated fields of their declaration
text; deferred-factory definitions are never static-like) and an
instance-like group, orders each group lexicographically by logical
name, emits the whole static-like group before the instance-like group,
and emits every collected helper name other than the reserved key
variables exactly once. -/
theorem finish_helper_emission_order (defs : List (String × HelperDef))
    (hnd : (defs.map Prod.fst).Nodup) :
    (∃ statPart instPart,
      finishHelperOrder defs = statPart ++ instPart ∧
      List.Sorted strLeR statPart ∧
      List.Sorted strLeR instPart ∧
      (∀ n, n ∈ statPart ↔
        ∃ d, (n, d) ∈ defs ∧ n ≠ "variables" ∧ staticSlot d = true) ∧
      (∀ n, n ∈ instPart ↔
        ∃ d, (n, d) ∈ defs ∧ n ≠ "variables" ∧ staticSlot d = false)) ∧
    (∀ n d, (n, d) ∈ defs → n ≠ "variables" →
      (finishHelperOrder defs).count n = 1) := by
  constructor
  · refine
      ⟨sortA (((defs.filter (fun p => p.1 ≠ "variables")).filter
          (fun p => staticSlot p.2)).map Prod.fst),
       sortA (((defs.filter (fun p => p.1 ≠ "variables")).filter
          (fun p => !staticSlot p.2)).map Prod.fst),
       finishHelperOrder_parts defs, sortA_sorted _, sortA_sorted _, ?_, ?_⟩
    · intro n
      simp only [mem_sortA, List.mem_map, List.mem_filter, decide_eq_true_eq]
      constructor
      · rintro ⟨⟨pn, pd⟩, ⟨⟨hm, hne⟩, hst⟩, rfl⟩
        exact ⟨pd, hm, hne, hst⟩
      · rintro ⟨d, hm, hne, hst⟩
        exact ⟨(n, d), ⟨⟨hm, hne⟩, hst⟩, rfl⟩
    · intro n
      simp only [mem_sortA, List.mem_map, List.mem_filter, decide_eq_true_eq,
        Bool.not_eq_true']
      constructor
      · rintro ⟨⟨pn, pd⟩, ⟨⟨hm, hne⟩, hst⟩, rfl⟩
        exact ⟨pd, hm, hne, hst⟩
      · rintro ⟨d, hm, hne, hst⟩
        exact ⟨(n, d), ⟨⟨hm, hne⟩, hst⟩, rfl⟩
  · intro n d hm hne
    have hperm : (finishHelperOrder defs).Perm
        ((defs.filter (fun p => p.1 ≠ "variables")).map Prod.fst) := by
      have h1 : (finishHelperOrder defs).Perm
          ((((defs.filter (fun p => p.1 ≠ "variables")).filter
              (fun p => staticSlot p.2)) ++
            ((defs.filter (fun p => p.1 ≠ "variables")).filter
              (fun p => !staticSlot p.2))).map Prod.fst) := by
        rw [List.map_append]
        exact List.Perm.append (sortA_perm _) (sortA_perm _)
      exact h1.trans
        ((List.filter_append_perm (fun p => staticSlot p.2)
          (defs.filter (fun p => p.1 ≠ "variables"))).map Prod.fst)
    rw [hperm.count_eq n]
    apply List.count_eq_one_of_mem
    · exact hnd.sublist ((List.filter_sublist defs).map Prod.fst)
    · exact List.mem_map_of_mem Prod.fst
        (List.mem_filter.mpr ⟨hm, by simp [hne]⟩)

/-- Witness for C3: a concrete definition dictionary with a static, a
non-static and a deferred helper; the amended ordering applied there. -/
theorem finish_helper_emission_order_witness :
    (([("q", HelperDef.text "public static void q() \x7b"),
       ("p", HelperDef.text "public void p() \x7b"),
       ("f", HelperDef.factory "public static void f() \x7b")].map
         (Prod.fst (α := String) (β := HelperDef))).Nodup) ∧
    (List.count "p" (finishHelperOrder
      [("q", HelperDef.text "public static void q() \x7b"),
       ("p", HelperDef.text "public void p() \x7b"),
       ("f", HelperDef.factory "public static void f() \x7b")]) = 1) ∧
    finishHelperOrder
      [("q", HelperDef.text "public static void q() \x7b"),
       ("p", HelperDef.text "public void p() \x7b"),
       ("f", HelperDef.factory "public static void f() \x7b")] = ["q", "f", "p"] :=
  ⟨by decide,
   (finish_helper_emission_order
      [("q", HelperDef.text "public static void q() \x7b"),
       ("p", HelperDef.text "public void p() \x7b"),
       ("f", HelperDef.factory "public static void f() \x7b")] (by decide)).2
     "p" (HelperDef.text "public void p() \x7b") (by decide) (by decide),
   by decide⟩

/-! ## Claim C4 -/

/-- C4: mapType is total and falls back to Object: a missing or empty
logical type maps to Object, and a single logical type token that is in
none of the type mapping table, the block-class table and the
type-equivalence table maps to Object; GetVariableType returns Object
for any variable name without a recorded type. -/
theorem mapType_object_fallback :
    (∀ env : TypeEnv, mapType env none = "Object") ∧
    (∀ env : TypeEnv, mapType env (some "") = "Object") ∧
    (∀ (env : TypeEnv) (tok : String),
      splitChar ':' tok = [tok] →
      typeMapping tok = none →
      env.gbpClass tok = none →
      env.equiv tok = false →
      mapType env (some tok) = "Object") ∧
    (∀ (variableTypes : List (String × String)) (nm : String),
      lookupA variableTypes nm = none →
      GetVariableType variableTypes nm = "Object") := by
  refine ⟨?_, ?_, ?_, ?_⟩
  · intro env; rfl
  · intro env; rfl
  · intro env tok hsplit htm hgbp heq
    by_cases h : tok = ""
    · subst h; rfl
    · unfold mapType
      simp only [if_neg h, hsplit]
      show mapTypeStep env typeMapping tok = "Object"
      unfold mapTypeStep
      rw [htm, hgbp, heq]
      simp
  · intro variableTypes nm hl
    unfold GetVariableType
    rw [hl]

/-- Witness for C4: a concrete unknown token and an empty variable-type
dictionary. -/
theorem mapType_object_fallback_witness :
    splitChar ':' "FooBar" = ["FooBar"] ∧
    typeMapping "FooBar" = none ∧
    mapType ⟨fun _ => none, fun _ => false⟩ (some "FooBar") = "Object" ∧
    GetVariableType [] "FooBar" = "Object" :=
  ⟨by decide, by decide,
   mapType_object_fallback.2.2.1 ⟨fun _ => none, fun _ => false⟩ "FooBar"
     (by decide) (by decide) rfl rfl,
   mapType_object_fallback.2.2.2 [] "FooBar" rfl⟩

/-! ## Claim C5 -/

/-- C5 evaluated at the failing input: a global variable of blockly type
Boolean resolves through mapType to the Java type boolean (lower case),
but the default-initializer selection of finish compares the resolved
type with the literals Var, Boolean and String, so the rendered field
declaration for a boolean-typed global without an explicit initializer
carries no initializer at all, contradicting the claimed default of
false.  The string-typed default and the explicit-literal case do work
as claimed. -/
theorem finish_boolean_global_missing_initializer :
    mapType ⟨fun _ => none, fun _ => false⟩ (some "Boolean") = "boolean" ∧
    globalDecl [("flag", "boolean")] (fun n => n) ("flag", none) =
      "protected boolean flag;\n" ∧
    globalDecl [("flag", "boolean")] (fun n => n) ("flag", none) ≠
      "protected boolean flag = false;\n" ∧
    defaultInitializer "boolean" = "" ∧
    defaultInitializer "Boolean" = " = false" ∧
    globalDecl [("s", "String")] (fun n => n) ("s", none) =
      "protected String s = \"\";\n" ∧
    globalDecl [("x", "double")] (fun n => n) ("x", some "3.5") =
      "protected double x = 3.5;\n" := by
  refine ⟨by decide, by decide, by decide, by decide, by decide, by decide, by decide⟩

/-! ## Facts about the state transformers of workspaceToCode -/

theorem strAppend_assoc (a b c : String) : a ++ b ++ c = a ++ (b ++ c) := by
  apply String.ext
  simp [String.data_append]

theorem imports_foldl_addImportS (l : List String) (st : GenState) :
    (l.foldl addImportS st).imports_ = l.foldl addImportL st.imports_ := by
  induction l generalizing st with
  | nil => rfl
  | cons b bs ih => exact ih (addImportS st b)

theorem extraImports_foldl_addImportS (l : List String) (st : GenState) :
    (l.foldl addImportS st).ExtraImports_ = st.ExtraImports_ := by
  induction l generalizing st with
  | nil => rfl
  | cons b bs ih => exact ih (addImportS st b)

theorem mem_getImportsList_of_mem {x : String} {imports : List String}
    (extraImports : Option (List String)) (h : x ∈ imports) :
    x ∈ getImportsList imports extraImports := by
  unfold getImportsList
  cases extraImports with
  | none => exact mem_sortA.mpr h
  | some es =>
      exact mem_sortA.mpr ((mem_foldl_addImportL es imports).mpr (Or.inl h))

/-! ## Claim C6 -/

/-- C6: a root value exposing neither getDescendants nor getAllBlocks
makes forceUpdate throw an error naming the root, workspaceToCode
propagates exactly that error, and no output string is produced. -/
theorem workspaceToCode_bad_root_fatal (st0 : GenState)
    (nameFn : String → String → String) (root : Root)
    (bodyGen : GenState → String × GenState)
    (h1 : root.descendants = none) (h2 : root.allBlocks = none) :
    forceUpdate root = Except.error ("Not Block or Workspace: " ++ root.str) ∧
    workspaceToCodeE st0 nameFn root bodyGen =
      Except.error ("Not Block or Workspace: " ++ root.str) ∧
    ∀ out, workspaceToCodeE st0 nameFn root bodyGen ≠ Except.ok out := by
  have hf : forceUpdate root =
      Except.error ("Not Block or Workspace: " ++ root.str) := by
    unfold forceUpdate
    rw [h1, h2]
  have hw : workspaceToCodeE st0 nameFn root bodyGen =
      Except.error ("Not Block or Workspace: " ++ root.str) := by
    unfold workspaceToCodeE
    rw [hf]
    rfl
  refine ⟨hf, hw, ?_⟩
  intro out hc
  rw [hw] at hc
  exact Except.noConfusion hc

/-- Witness for C6: a concrete root with neither capability. -/
theorem workspaceToCode_bad_root_fatal_witness :
    (Root.mk none none (some "T") "42").descendants = none ∧
    workspaceToCodeE {} (fun n _ => n) (Root.mk none none (some "T") "42")
        (fun st => ("BODY", st)) =
      Except.error ("Not Block or Workspace: " ++ "42") :=
  ⟨rfl,
   (workspaceToCode_bad_root_fatal {} (fun n _ => n)
      (Root.mk none none (some "T") "42") (fun st => ("BODY", st)) rfl rfl).2.1⟩

/-! ## Claim C10 -/

/-- C10: in every run that completes without a fatal error,
workspaceToCode overwrites the configured base class with
AndroidNonvisibleComponent and registers the five fixed AppInventor
imports after the body has been generated, so the produced compilation
unit contains the extends AndroidNonvisibleComponent clause and the
final sorted import list contains the five fixed import statements. -/
theorem workspaceToCode_appinventor_override (st0 : GenState)
    (nameFn : String → String → String) (root : Root)
    (bodyGen : GenState → String × GenState)
    (hname : nameFn "AndroidNonvisibleComponent" "CLASS" = "AndroidNonvisibleComponent")
    (hroot : forceUpdate root = Except.ok ()) :
    (wtcFinalState (bodyGen (setAppName st0 root.appTitle)).2).Baseclass_ =
      "AndroidNonvisibleComponent" ∧
    (∀ lib ∈ fixedAppInventorImports,
      ("import " ++ lib ++ ";") ∈
        getImportsList
          (wtcFinalState (bodyGen (setAppName st0 root.appTitle)).2).imports_
          (wtcFinalState (bodyGen (setAppName st0 root.appTitle)).2).ExtraImports_) ∧
    (∃ pre post,
      workspaceToCodeE st0 nameFn root bodyGen =
        Except.ok (pre ++ " extends AndroidNonvisibleComponent" ++ post)) := by
  refine ⟨rfl, ?_, ?_⟩
  · intro lib hlib
    set st1 := (bodyGen (setAppName st0 root.appTitle)).2 with hst1
    have hsame : (wtcFinalState st1).imports_ =
        fixedAppInventorImports.foldl addImportL st1.imports_ := by
      show (setBaseclass (fixedAppInventorImports.foldl addImportS st1)
          "AndroidNonvisibleComponent").imports_ = _
      unfold setBaseclass
      exact imports_foldl_addImportS fixedAppInventorImports st1
    rw [hsame]
    apply mem_getImportsList_of_mem
    exact (mem_foldl_addImportL fixedAppInventorImports st1.imports_).mpr
      (Or.inr ⟨lib, hlib, rfl⟩)
  · set st1 := (bodyGen (setAppName st0 root.appTitle)).2 with hst1
    set stF := wtcFinalState st1 with hstF
    have hok : workspaceToCodeE st0 nameFn root bodyGen =
        Except.ok (wtcAssemble stF nameFn (bodyGen (setAppName st0 root.appTitle)).1) := by
      unfold workspaceToCodeE
      rw [hroot]
      rfl
    have hbase : getBaseclass stF nameFn = "AndroidNonvisibleComponent" := by
      have : stF.Baseclass_ = "AndroidNonvisibleComponent" := rfl
      unfold getBaseclass
      rw [this]
      simp [hname]
    refine ⟨wtcHeadPart stF nameFn,
      wtcTailPart stF nameFn (bodyGen (setAppName st0 root.appTitle)).1, ?_⟩
    rw [hok]
    congr 1
    unfold wtcAssemble
    rw [hbase]
    simp only [ne_eq, String.reduceEq, not_false_eq_true, if_true, ite_true]
    rw [show (" extends AndroidNonvisibleComponent" : String) =
      " extends " ++ "AndroidNonvisibleComponent" from rfl]
    simp [strAppend_assoc]

/-- Witness for C10: a concrete starting state with a previously
configured base class, an identity name database, a workspace root and a
trivial body generator. -/
theorem workspaceToCode_appinventor_override_witness :
    ((fun (n : String) (_ : String) => n) "AndroidNonvisibleComponent" "CLASS" =
      "AndroidNonvisibleComponent") ∧
    (wtcFinalState ((fun (st : GenState) => ("BODY", st))
        (setAppName { Baseclass_ := "Old" } (Root.mk (some []) none (some "T") "ws").appTitle)).2).Baseclass_ =
      "AndroidNonvisibleComponent" ∧
    (∃ pre post,
      workspaceToCodeE { Baseclass_ := "Old" } (fun n _ => n)
          (Root.mk (some []) none (some "T") "ws") (fun st => ("BODY", st)) =
        Except.ok (pre ++ " extends AndroidNonvisibleComponent" ++ post)) := by
  have h := workspaceToCode_appinventor_override { Baseclass_ := "Old" }
    (fun n _ => n) (Root.mk (some []) none (some "T") "ws")
    (fun st => ("BODY", st)) rfl rfl
  exact ⟨rfl, h.1, h.2.2⟩

/-! ## Facts about prefixLines and nested comments -/

theorem strAppend_empty (s : String) : s ++ "" = s := by
  apply String.ext
  have h : ("" : String).data = [] := rfl
  simp [String.data_append, h]

theorem strAppend_newline_ne_empty (s : String) : s ++ "\n" ≠ "" := by
  intro h
  have hl := congrArg String.length h
  rw [String.length_append] at hl
  have h1 : ("\n" : String).length = 1 := rfl
  have h0 : ("" : String).length = 0 := rfl
  omega

theorem prefixLinesAux_no_newline (p : List Char) :
    ∀ cs : List Char, '\n' ∉ cs → prefixLinesAux p cs = cs := by
  intro cs
  induction cs with
  | nil => intro _; rfl
  | cons c rest ih =>
      intro h
      have hc : c ≠ '\n' := fun hcc => h (by simp [hcc])
      have hr : '\n' ∉ rest := fun hrr => h (by simp [hrr])
      cases rest with
      | nil => simp [prefixLinesAux, hc]
      | cons d rest2 =>
          rw [show prefixLinesAux p (c :: d :: rest2) =
            c :: prefixLinesAux p (d :: rest2) from by
              simp [prefixLinesAux, hc]]
          rw [ih hr]

theorem prefixLinesAux_line_newline (p : List Char) :
    ∀ cs : List Char, '\n' ∉ cs →
      prefixLinesAux p (cs ++ ['\n']) = cs ++ ['\n'] := by
  intro cs
  induction cs with
  | nil => intro _; rfl
  | cons c rest ih =>
      intro h
      have hc : c ≠ '\n' := fun hcc => h (by simp [hcc])
      have hr : '\n' ∉ rest := fun hrr => h (by simp [hrr])
      cases hrest : rest ++ ['\n'] with
      | nil => exact absurd (congrArg List.length hrest) (by simp)
      | cons d rest2 =>
          rw [List.cons_append, hrest]
          rw [show prefixLinesAux p (c :: d :: rest2) =
            c :: prefixLinesAux p (d :: rest2) from by
              simp [prefixLinesAux, hc]]
          rw [← hrest, ih hr]

theorem prefixLines_single_line (s pfx : String) (h : '\n' ∉ s.data) :
    prefixLines s pfx = pfx ++ s := by
  unfold prefixLines
  apply String.ext
  simp [String.data_append, prefixLinesAux_no_newline pfx.data s.data h]

theorem prefixLines_line_newline (s pfx : String) (h : '\n' ∉ s.data) :
    prefixLines (s ++ "\n") pfx = pfx ++ s ++ "\n" := by
  unfold prefixLines
  apply String.ext
  have hd : (s ++ "\n").data = s.data ++ ['\n'] := by
    rw [String.data_append]
  simp [String.data_append, hd, prefixLinesAux_line_newline pfx.data s.data h]

theorem allNestedComments_leaf (o : Option Bool) (c : String) (hc : c ≠ "") :
    allNestedComments (JBlock.mk o (some c) [] none) = c ++ "\n" := by
  unfold allNestedComments
  have hl : (JBlock.mk o (some c) [] none).commentList = [c] := by
    simp [JBlock.commentList, inputsCommentList, optCommentList, hc]
  rw [hl]
  show joinSep "\n" [c, ""] = c ++ "\n"
  show c ++ "\n" ++ "" = c ++ "\n"
  exact strAppend_empty (c ++ "\n")

/-! ## Claim C7 -/

theorem strEmpty_append (s : String) : "" ++ s = s := by
  apply String.ext
  have h : ("" : String).data = [] := rfl
  simp [String.data_append, h]

/-- C7: for a block that is not inlined into another expression, scrub_
prepends comment lines in parent-then-child order: the blocks own
comment as a // line first, then the nested comments of the value-input
subtree, both before the blocks code; the statement-input subtree is
not harvested; a block that feeds a value slot of a parent contributes
no comment lines of its own. -/
theorem scrub_comment_harvesting (cX cY cZ code : String)
    (f : Option JBlock → ScrubSt → String × ScrubSt)
    (hX : cX ≠ "") (hXn : '\n' ∉ cX.data)
    (hY : cY ≠ "") (hYn : '\n' ∉ cY.data) :
    scrubCommentCode
        (JBlock.mk none (some cX)
          [(InKind.value, some (JBlock.mk (some true) (some cY) [] none)),
           (InKind.statement, some (JBlock.mk none (some cZ) [] none))] none) =
      "// " ++ cX ++ "\n" ++ ("// " ++ cY ++ "\n") ∧
    (∀ (cmt : Option String) (inputs : List (InKind × Option JBlock))
        (nxt : Option JBlock),
      scrubCommentCode (JBlock.mk (some true) cmt inputs nxt) = "") ∧
    (scrub
        (JBlock.mk none (some cX)
          [(InKind.value, some (JBlock.mk (some true) (some cY) [] none)),
           (InKind.statement, some (JBlock.mk none (some cZ) [] none))] none)
        code ⟨"", ""⟩ f).1 =
      "// " ++ cX ++ "\n" ++ ("// " ++ cY ++ "\n") ++ code ++
        (f none ⟨"", ""⟩).1 := by
  have hcc : scrubCommentCode
      (JBlock.mk none (some cX)
        [(InKind.value, some (JBlock.mk (some true) (some cY) [] none)),
         (InKind.statement, some (JBlock.mk none (some cZ) [] none))] none) =
      "// " ++ cX ++ "\n" ++ ("// " ++ cY ++ "\n") := by
    unfold scrubCommentCode
    simp only [JBlock.outputHasTarget, JBlock.comment, JBlock.inputs,
      List.foldl_cons, List.foldl_nil, ne_eq, reduceCtorEq, not_false_eq_true,
      ite_true, hX, ite_false]
    rw [allNestedComments_leaf (some true) cY hY]
    rw [if_neg (strAppend_newline_ne_empty cY)]
    rw [prefixLines_single_line cX "// " hXn,
      prefixLines_line_newline cY "// " hYn]
    rw [strEmpty_append]
  refine ⟨hcc, ?_, ?_⟩
  · intro cmt inputs nxt
    unfold scrubCommentCode
    simp [JBlock.outputHasTarget]
  · unfold scrub
    simp only [JBlock.next]
    rw [hcc]
    cases hf : f none ⟨"", ""⟩ with
    | mk nextCode st2 =>
        simp only [ne_eq, not_true_eq_false, ite_false, if_neg]
        rw [strAppend_empty]

/-- Witness for C7: concrete one-line comments on a statement block, on
its value-input child and on its statement-input child. -/
theorem scrub_comment_harvesting_witness :
    ("do X" : String) ≠ "" ∧
    scrubCommentCode
        (JBlock.mk none (some "do X")
          [(InKind.value, some (JBlock.mk (some true) (some "helper note") [] none)),
           (InKind.statement, some (JBlock.mk none (some "stmt") [] none))] none) =
      "// do X\n// helper note\n" := by
  have h := scrub_comment_harvesting "do X" "helper note" "stmt" ""
    (fun _ st => ("", st)) (by decide) (by decide) (by decide) (by decide)
  exact ⟨by decide, h.1.trans (by decide)⟩

/-! ## Claim C8 -/

/-- C8: scrub_ consumes the staged POSTFIX and EXTRAINDENT modifiers
exactly once: the next-chain emission always starts from cleared
modifiers, the staged extra indent is applied to the next-chain code
alone, and the staged postfix is appended exactly once after it;
consequently, in a chain of two statement blocks the modifiers staged
before the first block do not leak into the emission of the second. -/
theorem scrub_single_use_modifiers :
    (∀ (b : JBlock) (code : String) (st : ScrubSt)
        (f : Option JBlock → ScrubSt → String × ScrubSt),
      scrub b code st f =
        (scrubCommentCode b ++ code ++
          (if st.EXTRAINDENTV ≠ "" then
            prefixLines (f b.next ⟨"", ""⟩).1 st.EXTRAINDENTV
          else (f b.next ⟨"", ""⟩).1) ++ st.POSTFIXV,
         (f b.next ⟨"", ""⟩).2)) ∧
    scrub (JBlock.mk none none [] (some (JBlock.mk none none [] none))) "A;\n"
        ⟨"P", "  "⟩
        (fun ob st1 =>
          match ob with
          | some nb => scrub nb "B;\n" st1 (fun _ st2 => ("", st2))
          | none => ("", st1)) =
      ("A;\n" ++ "  B;\n" ++ "P", ⟨"", ""⟩) := by
  constructor
  · intro b code st f
    rfl
  · decide

/-! ## Facts about dictionary updates -/

theorem lookupA_map_update_ne (k0 v k : String) (h : k ≠ k0) :
    ∀ l : List (String × String),
      lookupA (l.map (fun p => if p.1 = k0 then (k0, v) else p)) k = lookupA l k := by
  intro l
  induction l with
  | nil => rfl
  | cons p rest ih =>
      by_cases hp : p.1 = k0
      · have hne : ¬(k0 = k) := fun hc => h hc.symm
        have hpk : ¬(p.1 = k) := by rw [hp]; exact hne
        simp [lookupA, hp, hne, hpk, ih]
      · have hupd : (if p.1 = k0 then (k0, v) else p) = p := if_neg hp
        simp only [List.map_cons]
        rw [hupd]
        by_cases hk : p.1 = k
        · simp [lookupA, hk]
        · simp [lookupA, hk, ih]

theorem lookupA_append_single_ne (k0 v k : String) (h : k ≠ k0) :
    ∀ l : List (String × String),
      lookupA (l ++ [(k0, v)]) k = lookupA l k := by
  intro l
  induction l with
  | nil =>
      have hne : ¬(k0 = k) := fun hc => h hc.symm
      simp [lookupA, hne]
  | cons p rest ih =>
      by_cases hk : p.1 = k
      · simp [lookupA, hk]
      · simp [lookupA, hk, ih]

theorem lookupA_upsertA_ne (l : List (String × String)) (k0 v k : String)
    (h : k ≠ k0) : lookupA (upsertA l k0 v) k = lookupA l k := by
  unfold upsertA
  by_cases hany : l.any (fun p => p.1 = k0)
  · simp only [hany, if_true, ite_true]
    exact lookupA_map_update_ne k0 v k h l
  · simp only [hany, if_false, ite_false]
    exact lookupA_append_single_ne k0 v k h l

theorem lookupA_foldl_upsert (val : String → String) (k : String) :
    ∀ (ks : List String) (l : List (String × String)), k ∉ ks →
      lookupA (ks.foldl (fun acc key => upsertA acc key (val key)) l) k =
        lookupA l k := by
  intro ks
  induction ks with
  | nil => intro l _; rfl
  | cons a rest ih =>
      intro l h
      have ha : k ≠ a := fun hc => h (by simp [hc])
      have hr : k ∉ rest := fun hc => h (by simp [hc])
      rw [List.foldl_cons, ih _ hr, lookupA_upsertA_ne _ _ _ _ ha]

/-! ## Claim C9 -/

/-- C9 counterexample: init does not rebuild all per-run state from
scratch.  On a concrete state carrying an interface registered by
addInterface during an earlier run and a variable type recorded for a
variable of an earlier run, init leaves both in place, and the stale
interface flows into the implements clause of the class signature of
the next run, so such entries are observable in later output. -/
theorem init_keeps_stale_state_counterexample :
    (initG
        { Interfaces_ := ["FooIface"], variableTypes_ := [("old", "String")] }
        ⟨fun _ => none, fun _ => false⟩ [] []).Interfaces_ = ["FooIface"] ∧
    (initG
        { Interfaces_ := ["FooIface"], variableTypes_ := [("old", "String")] }
        ⟨fun _ => none, fun _ => false⟩ [] []).Interfaces_ ≠ [] ∧
    lookupA
        (initG
          { Interfaces_ := ["FooIface"], variableTypes_ := [("old", "String")] }
          ⟨fun _ => none, fun _ => false⟩ [] []).variableTypes_ "old" =
      some "String" ∧
    GetVariableType
        (initG
          { Interfaces_ := ["FooIface"], variableTypes_ := [("old", "String")] }
          ⟨fun _ => none, fun _ => false⟩ [] []).variableTypes_ "old" = "String" ∧
    implementsPart
        (initG
          { Interfaces_ := ["FooIface"], variableTypes_ := [("old", "String")] }
          ⟨fun _ => none, fun _ => false⟩ [] []).Interfaces_ =
      " implements FooIface" := by
  refine ⟨rfl, by decide, rfl, rfl, rfl⟩

/-- C9 as amended: init rebuilds the definitions, function-name,
import, extra-class and globals dictionaries from scratch (reseeding
the imports from the always-needed list), resets the name database and
replaces the blockly-type cache with the types of the current
workspace; but the interface list survives init unchanged, and entries
of the Java variable-type cache for variables that are not part of the
current workspace survive from earlier runs. -/
theorem init_rebuilds_per_run_state (st : GenState) (env : TypeEnv)
    (wsVars : List String) (wsTypes : List (String × String)) :
    (initG st env wsVars wsTypes).definitions_ = [] ∧
    (initG st env wsVars wsTypes).functionNames_ = [] ∧
    (initG st env wsVars wsTypes).classes_ = [] ∧
    (initG st env wsVars wsTypes).globals_ = [] ∧
    (initG st env wsVars wsTypes).variableDB_ = [] ∧
    (initG st env wsVars wsTypes).imports_ = st.needImports_.foldl addImportL [] ∧
    (initG st env wsVars wsTypes).blocklyTypes_ = wsTypes ∧
    (initG st env wsVars wsTypes).Interfaces_ = st.Interfaces_ ∧
    (∀ k, k ∉ wsVars → k ∉ wsTypes.map Prod.fst →
      lookupA (initG st env wsVars wsTypes).variableTypes_ k =
        lookupA st.variableTypes_ k) := by
  refine ⟨rfl, rfl, rfl, rfl, rfl, rfl, rfl, rfl, ?_⟩
  intro k hk1 hk2
  have hk : k ∉ wsVars ++ wsTypes.map Prod.fst := by
    intro hc
    rcases List.mem_append.mp hc with hc | hc
    · exact hk1 hc
    · exact hk2 hc
  exact lookupA_foldl_upsert
    (fun key =>
      mapType { env with equiv := fun t => t = "Colour" || env.equiv t }
        (lookupA wsTypes key))
    k (wsVars ++ wsTypes.map Prod.fst) st.variableTypes_ hk

/-- Witness for C9: the amended statement applied to a concrete state
with one stale variable type and one current workspace variable. -/
theorem init_rebuilds_per_run_state_witness :
    ("old" : String) ∉ ["v1"] ∧
    lookupA
        (initG { variableTypes_ := [("old", "String")] }
          ⟨fun _ => none, fun _ => false⟩ ["v1"] [("v1", "Boolean")]).variableTypes_
        "old" =
      lookupA [("old", "String")] "old" := by
  have h := (init_rebuilds_per_run_state
    { variableTypes_ := [("old", "String")] }
    ⟨fun _ => none, fun _ => false⟩ ["v1"] [("v1", "Boolean")]).2.2.2.2.2.2.2.2
    "old" (by decide) (by decide)
  exact ⟨by decide, h⟩
